import Mathlib

/-!
Shallow embedding of the bird-observation data pipeline
(`app.py`: `load_data`, `preprocess_data`; `birds.py`:
`load_and_preprocess_data`) and proofs about it.

A dataframe is a list of column names together with row-major cell data.
Cells are modelled by `Value`: `na` is the missing marker (NaN/NaT/None),
`num` a numeric cell, `str` a string cell, `date` a parsed calendar date
(`pd.to_datetime(..., format=yyyy-mm-dd)`), `time` a parsed time-of-day
(`pd.to_datetime(..., format=hh:mm:ss).dt.time`).
-/

namespace BirdsPipeline

/-- A dataframe cell value. -/
inductive Value where
  | na : Value
  | num : Int → Value
  | str : String → Value
  | date : Nat → Nat → Nat → Value
  | time : Nat → Nat → Nat → Value
deriving DecidableEq, Repr

/-- A dataframe: column names plus row-major cells. -/
structure DF where
  cols : List String
  rows : List (List Value)
deriving DecidableEq, Repr

/-- `v.isNa` holds exactly on the missing marker. -/
def Value.isNa : Value → Bool
  | .na => true
  | _ => false

/-- Numeric cells. -/
def Value.isNum : Value → Bool
  | .num _ => true
  | _ => false

/-- Parsed-date cells. -/
def Value.isDate : Value → Bool
  | .date _ _ _ => true
  | _ => false

/-- Cells that can occur in freshly loaded (unparsed) data: missing,
numeric, or string — never an already-parsed date or time object. -/
def Value.isRaw : Value → Bool
  | .na => true
  | .num _ => true
  | .str _ => true
  | _ => false

/-- Split a character list at every occurrence of the separator. -/
def splitOnChar (sep : Char) : List Char → List (List Char)
  | [] => [[]]
  | c :: rest =>
    let r := splitOnChar sep rest
    if c = sep then [] :: r
    else
      match r with
      | [] => [[c]]
      | h :: t => (c :: h) :: t

/-- Digits-only check. -/
def allDigits (l : List Char) : Bool := l.all (fun c => c.isDigit)

/-- Decimal value of a digit list. -/
def digitsToNat (l : List Char) : Nat :=
  l.foldl (fun a c => a * 10 + (c.toNat - 48)) 0

/-- Gregorian leap-year test, as `strptime` date validation uses. -/
def isLeap (y : Nat) : Bool := (y % 4 = 0 && y % 100 ≠ 0) || y % 400 = 0

/-- Days in a month, for `%d` validation. -/
def daysInMonth (y m : Nat) : Nat :=
  if m = 2 then (if isLeap y then 29 else 28)
  else if m = 4 || m = 6 || m = 9 || m = 11 then 30
  else 31

/-- Parse a string against the fixed `%Y-%m-%d` format
(`pd.to_datetime(..., format='%Y-%m-%d')`): a four-digit year and
one-or-two-digit month and day, range-checked; anything else fails. -/
def parseDateStr (s : String) : Option (Nat × Nat × Nat) :=
  match splitOnChar '-' s.data with
  | [y, m, d] =>
    if y.length = 4 && allDigits y &&
       (m.length = 1 || m.length = 2) && allDigits m &&
       (d.length = 1 || d.length = 2) && allDigits d then
      let yn := digitsToNat y
      let mn := digitsToNat m
      let dn := digitsToNat d
      if 1 ≤ mn && mn ≤ 12 && 1 ≤ dn && dn ≤ daysInMonth yn mn then
        some (yn, mn, dn)
      else none
    else none
  | _ => none

/-- Parse a string against the fixed `%H:%M:%S` format
(`pd.to_datetime(..., format='%H:%M:%S')`). -/
def parseTimeStr (s : String) : Option (Nat × Nat × Nat) :=
  match splitOnChar ':' s.data with
  | [h, m, sec] =>
    if (h.length = 1 || h.length = 2) && allDigits h &&
       (m.length = 1 || m.length = 2) && allDigits m &&
       (sec.length = 1 || sec.length = 2) && allDigits sec then
      let hn := digitsToNat h
      let mn := digitsToNat m
      let sn := digitsToNat sec
      if hn ≤ 23 && mn ≤ 59 && sn ≤ 59 then some (hn, mn, sn) else none
    else none
  | _ => none

/-- One cell of `pd.to_datetime(col, format='%Y-%m-%d', errors='coerce')`:
strings are parsed against the format (failures coerce to `NaT`),
already-parsed datetimes pass through, every other value — missing,
numeric, time objects — coerces to `NaT`. -/
def coerceDate : Value → Value
  | .str s =>
    match parseDateStr s with
    | some (y, m, d) => .date y m d
    | none => .na
  | .date y m d => .date y m d
  | _ => .na

/-- One cell of `pd.to_datetime(col, format='%H:%M:%S', errors='coerce').dt.time`:
strings parsed against the format become time-of-day values, datetimes pass
through `to_datetime` and `.dt.time` extracts their (midnight) time
component, and every other value — including `datetime.time` objects, which
`to_datetime` cannot convert — coerces to `NaT`. -/
def coerceTime : Value → Value
  | .str s =>
    match parseTimeStr s with
    | some (h, m, sec) => .time h m sec
    | none => .na
  | .date _ _ _ => .time 0 0 0
  | _ => .na

/-- The two date columns `preprocess_data` converts. -/
def dateColNames : List String := ["Date_forest", "Date_grassland"]

/-- The four time columns `preprocess_data` converts. -/
def timeColNames : List String :=
  ["Start_Time_forest", "End_Time_forest", "Start_Time_grassland", "End_Time_grassland"]

/-- All six columns `preprocess_data` reads during type conversion, in
source order; a `KeyError` is raised at the first absent one. -/
def expectedCols : List String :=
  ["Date_forest", "Date_grassland", "Start_Time_forest", "End_Time_forest",
   "Start_Time_grassland", "End_Time_grassland"]

/-- A pandas column dtype class, as `select_dtypes` distinguishes them:
`numeric` is selected by `include=['number']`, `object` by
`include=['object']`, `datetime` by neither. -/
inductive Dtype where
  | numeric : Dtype
  | datetime : Dtype
  | object : Dtype
deriving DecidableEq, Repr

/-- Column `j` of a dataframe (missing marker past a row's end). -/
def colCells (df : DF) (j : Nat) : List Value :=
  df.rows.map (fun r => r.getD j .na)

/-- Dtype of a column from its cells: all-numeric-or-missing columns are
numeric (an all-missing column is `float64` in pandas), pure
date-or-missing columns are `datetime64`, everything else — strings,
mixtures, time objects — is `object`. -/
def dtypeOf (cs : List Value) : Dtype :=
  if cs.all (fun v => v.isNa || v.isNum) then .numeric
  else if cs.all (fun v => v.isNa || v.isDate) then .datetime
  else .object

/-- The `fillna` step of `preprocess_data` on one cell: missing cells of
numeric columns become `0`, missing cells of object columns become
`"Unknown"`, and all other cells (including missing cells of datetime
columns, which `select_dtypes` never selects) are untouched. -/
def fillValue : Dtype → Value → Value
  | .numeric, .na => .num 0
  | .object, .na => .str "Unknown"
  | _, v => v

/-- Dtypes of all columns of a dataframe, in column order. -/
def dtypes (df : DF) : List Dtype :=
  (List.range df.cols.length).map (fun j => dtypeOf (colCells df j))

/-- The two `fillna` calls of `preprocess_data`: numeric columns filled
with `0`, object columns with `"Unknown"`. -/
def fillna (df : DF) : DF :=
  ⟨df.cols, df.rows.map (fun r => List.zipWith fillValue (dtypes df) r)⟩

/-- The per-cell conversion applied to a column with the given name:
date columns through `coerceDate`, time columns through `coerceTime`,
all other columns untouched. -/
def applyCoerce (c : String) (v : Value) : Value :=
  if c ∈ dateColNames then coerceDate v
  else if c ∈ timeColNames then coerceTime v
  else v

/-- The type-conversion block of `preprocess_data`: each of the six
expected columns is read (raising `KeyError` — modelled as `.error` with
the column name — at the first absent one) and replaced by its parsed
form. -/
def convert_types (df : DF) : Except String DF :=
  match expectedCols.find? (fun c => !(df.cols.contains c)) with
  | some c => .error c
  | none => .ok ⟨df.cols, df.rows.map (fun r => List.zipWith applyCoerce df.cols r)⟩

/-- The normalization part of `preprocess_data`: fill missing values by
column dtype, then convert the six date/time columns. -/
def normalize (df : DF) : Except String DF := convert_types (fillna df)

/-- The join key of `preprocess_data`. -/
def keyCol : String := "AcceptedTSN"

/-- Rename a left (forest) column for the merge: non-key names also
present on the right acquire `_forest`. -/
def renameL (gcols : List String) (c : String) : String :=
  if c ≠ keyCol && gcols.contains c then c ++ "_forest" else c

/-- Rename a right (grassland) column for the merge: non-key names also
present on the left acquire `_grassland`. -/
def renameR (fcols : List String) (c : String) : String :=
  if fcols.contains c then c ++ "_grassland" else c

/-- Columns of the outer merge: every left column (suffixed where
colliding, the key kept as is), then every non-key right column
(suffixed where colliding). -/
def mergedCols (f g : DF) : List String :=
  f.cols.map (renameL g.cols) ++
    (g.cols.filter (fun c => c ≠ keyCol)).map (renameR f.cols)

/-- Remove the element at index `i`. -/
def dropIdx (l : List Value) (i : Nat) : List Value :=
  l.take i ++ l.drop (i + 1)

/-- The right rows whose key equals the given left row's key. -/
def matchRows (g : DF) (li ri : Nat) (rf : List Value) : List (List Value) :=
  g.rows.filter (fun rg => rg.getD ri .na = rf.getD li .na)

/-- The merged rows contributed by one left row: one combined row per
matching right row, or a single row padded with missing right cells when
no right row matches. -/
def leftBlock (g : DF) (li ri : Nat) (rf : List Value) : List (List Value) :=
  if (matchRows g li ri rf).isEmpty then
    [rf ++ List.replicate (g.cols.length - 1) .na]
  else (matchRows g li ri rf).map (fun rg => rf ++ dropIdx rg ri)

/-- The right rows matched by no left row. -/
def unmatchedRight (f g : DF) (li ri : Nat) : List (List Value) :=
  g.rows.filter
    (fun rg => !(f.rows.any (fun rf => rf.getD li .na = rg.getD ri .na)))

/-- The merged row contributed by an unmatched right row: missing left
cells apart from the key, then the right row's non-key cells. -/
def rightOnlyRow (f : DF) (li ri : Nat) (rg : List Value) : List Value :=
  (List.replicate f.cols.length .na).set li (rg.getD ri .na) ++ dropIdx rg ri

/-- Rows of the outer merge, given the key positions in each input: every
left row paired with each right row of equal key (or padded with missing
right cells when none matches), then every unmatched right row with
missing left cells apart from its key. The multiset of rows agrees with
`pd.merge(..., on='AcceptedTSN', how='outer')`. -/
def mergedRows (f g : DF) (li ri : Nat) : List (List Value) :=
  f.rows.flatMap (leftBlock g li ri) ++
    (unmatchedRight f g li ri).map (rightOnlyRow f li ri)

/-- `pd.merge(df_forest, df_grassland, on='AcceptedTSN', how='outer',
suffixes=('_forest', '_grassland'))`; a missing key column on either side
raises (modelled as `.error`). -/
def mergeDF (f g : DF) : Except String DF :=
  if f.cols.contains keyCol && g.cols.contains keyCol then
    .ok ⟨mergedCols f g, mergedRows f g (f.cols.indexOf keyCol) (g.cols.indexOf keyCol)⟩
  else .error "MissingKeyColumn"

/-- `preprocess_data`: returns `none` when either input is `None`,
otherwise merges and normalizes; a raised exception inside is the
`.error` case. -/
def preprocess_data : Option DF → Option DF → Option (Except String DF)
  | some f, some g =>
    some (match mergeDF f g with
          | .error e => .error e
          | .ok md => normalize md)
  | _, _ => none

/-- `load_data`: the filesystem is a partial map from paths to the
per-source concatenated sheet data. The two reads execute in order inside
one `try`: a missing first file leaves both results `None`; a missing
second file leaves the already-loaded first table in place and only the
second result `None`. -/
def load_data (fs : String → Option DF) (p1 p2 : String) : Option DF × Option DF :=
  match fs p1 with
  | none => (none, none)
  | some d1 =>
    match fs p2 with
    | none => (some d1, none)
    | some d2 => (some d1, some d2)

/-- Cell `(i, j)` of a dataframe, missing marker out of range. -/
def cell (df : DF) (i j : Nat) : Value := (df.rows.getD i []).getD j .na

/-- The key column's values, one per row. -/
def keyVals (df : DF) : List Value := colCells df (df.cols.indexOf keyCol)

/-- Every row has exactly one cell per column. -/
def widthOK (df : DF) : Bool := df.rows.all (fun r => r.length = df.cols.length)

/-- Every cell is raw (missing, numeric or string) — true of freshly
loaded spreadsheet data before any datetime conversion. -/
def rawDF (df : DF) : Bool := df.rows.all (fun r => r.all Value.isRaw)

end BirdsPipeline

namespace BirdsAlt

open BirdsPipeline

/-- Substring test on character lists, for Python's `'Date' in col`. -/
def hasSub (needle : List Char) : List Char → Bool
  | [] => needle.isEmpty
  | c :: t => needle.isPrefixOf (c :: t) || hasSub needle t

/-- `birds.py`: suffix every column name of one habitat's table. -/
def renameAll (suffix : String) (df : DF) : DF :=
  ⟨df.cols.map (fun c => c ++ suffix), df.rows⟩

/-- `birds.py`: `pd.to_datetime(df[col], errors='coerce')` applied to
every column whose name contains `"Date"`; the format-free parser is
abstracted as a parameter `dateParse`. -/
def parseDateCols (dateParse : Value → Value) (df : DF) : DF :=
  ⟨df.cols,
   df.rows.map (fun r =>
     List.zipWith
       (fun c v => if hasSub "Date".data c.data then dateParse v else v)
       df.cols r)⟩

/-- `load_and_preprocess_data` of `birds.py` after two successful reads:
rename all columns with `_forest` / `_grassland`, parse `Date` columns,
then truncate both tables to the shorter length and concatenate them
side by side (`pd.concat([...head(n), ...head(n)], axis=1)`) — no join on
any key. -/
def load_and_preprocess_data (dateParse : Value → Value) (f g : DF) : DF :=
  let fr := parseDateCols dateParse (renameAll "_forest" f)
  let gr := parseDateCols dateParse (renameAll "_grassland" g)
  let n := min fr.rows.length gr.rows.length
  ⟨fr.cols ++ gr.cols,
   List.zipWith (fun a b => a ++ b) (fr.rows.take n) (gr.rows.take n)⟩

end BirdsAlt

namespace BirdsPipeline

/-- Example forest table: one observation, species key 1. -/
def exF : DF :=
  ⟨["AcceptedTSN", "Date", "Start_Time", "End_Time", "Obs"],
   [[.num 1, .str "2021-06-01", .str "09:00:00", .str "10:00:00", .str "sparrow"]]⟩

/-- Example grassland table: one observation, species key 2 (disjoint
from the forest keys), with a missing `Wind` cell. -/
def exG : DF :=
  ⟨["AcceptedTSN", "Date", "Start_Time", "End_Time", "Wind"],
   [[.num 2, .str "2021-07-01", .str "11:00:00", .str "12:00:00", .na]]⟩

/-- Example grassland table whose date cell is the unparseable literal
`"not-a-date"`. -/
def exGbad : DF :=
  ⟨["AcceptedTSN", "Date", "Start_Time", "End_Time", "Wind"],
   [[.num 3, .str "not-a-date", .str "25:99:00", .str "12:00:00", .str "calm"]]⟩

/-- The merged example table. -/
def exMD : DF :=
  match mergeDF exF exG with
  | .ok d => d
  | .error _ => ⟨[], []⟩

/-- The merged-and-normalized example table. -/
def exM : DF :=
  match normalize exMD with
  | .ok d => d
  | .error _ => ⟨[], []⟩

/-- The merged example table with the unparseable date. -/
def exMDbad : DF :=
  match mergeDF exF exGbad with
  | .ok d => d
  | .error _ => ⟨[], []⟩

/-- Its normalization. -/
def exMbad : DF :=
  match normalize exMDbad with
  | .ok d => d
  | .error _ => ⟨[], []⟩

/-- A merged-shaped table with all six expected date/time columns and
parseable values, for exercising normalization directly. -/
def exN : DF :=
  ⟨["AcceptedTSN", "Date_forest", "Date_grassland", "Start_Time_forest",
    "End_Time_forest", "Start_Time_grassland", "End_Time_grassland"],
   [[.num 1, .str "2021-06-01", .str "2021-06-02", .str "09:00:00",
     .str "10:00:00", .str "11:00:00", .str "12:00:00"]]⟩

/-- `exN` normalized once. -/
def exN1 : DF :=
  match normalize exN with
  | .ok d => d
  | .error _ => ⟨[], []⟩

/-- `exN` normalized twice. -/
def exN2 : DF :=
  match normalize exN1 with
  | .ok d => d
  | .error _ => ⟨[], []⟩

/-- A table missing the expected `Start_Time_grassland` column. -/
def exNoCol : DF :=
  ⟨["AcceptedTSN", "Date_forest", "Date_grassland", "Start_Time_forest",
    "End_Time_forest", "End_Time_grassland"],
   [[.num 1, .na, .na, .na, .na, .na]]⟩

/-- An example filesystem on which only the forest source exists. -/
def exFS : String → Option DF :=
  fun p => if p = "forest.xlsx" then some exF else none

end BirdsPipeline

namespace BirdsPipeline

lemma widthOK_row {df : DF} (hw : widthOK df = true) {r : List Value}
    (hr : r ∈ df.rows) : r.length = df.cols.length := by
  have := List.all_eq_true.mp hw r hr
  simpa using this

lemma length_dtypes (df : DF) : (dtypes df).length = df.cols.length := by
  simp [dtypes]

lemma getD_dtypes (df : DF) (j : Nat) (hj : j < df.cols.length) :
    (dtypes df).getD j .object = dtypeOf (colCells df j) := by
  rw [List.getD_eq_getElem _ _ (show j < (dtypes df).length by
    rw [length_dtypes]; exact hj)]
  simp [dtypes]

lemma fillna_cols (df : DF) : (fillna df).cols = df.cols := rfl

lemma fillna_rows_length (df : DF) : (fillna df).rows.length = df.rows.length := by
  simp [fillna]

lemma fillna_row_length {df : DF} (hw : widthOK df = true) (i : Nat)
    (hi : i < df.rows.length) :
    ((fillna df).rows.getD i []).length = df.cols.length := by
  unfold fillna
  rw [List.getD_eq_getElem _ _ (by simpa using hi), List.getElem_map]
  rw [List.length_zipWith, length_dtypes,
    widthOK_row hw (List.getElem_mem hi), Nat.min_self]

lemma cell_fillna {df : DF} (hw : widthOK df = true) (i j : Nat)
    (hi : i < df.rows.length) (hj : j < df.cols.length) :
    cell (fillna df) i j = fillValue (dtypeOf (colCells df j)) (cell df i j) := by
  have hr : (df.rows.getD i []).length = df.cols.length := by
    rw [List.getD_eq_getElem _ _ hi]
    exact widthOK_row hw (List.getElem_mem hi)
  have h1 : (df.rows.map (fun r => List.zipWith fillValue (dtypes df) r)).getD i []
      = List.zipWith fillValue (dtypes df) (df.rows.getD i []) := by
    rw [List.getD_eq_getElem _ _ (show i <
        (df.rows.map (fun r => List.zipWith fillValue (dtypes df) r)).length by
      simpa using hi)]
    rw [List.getElem_map, List.getD_eq_getElem _ _ hi]
  have hzl : (List.zipWith fillValue (dtypes df) (df.rows.getD i [])).length
      = df.cols.length := by
    rw [List.length_zipWith, length_dtypes, hr, Nat.min_self]
  have h2 : (List.zipWith fillValue (dtypes df) (df.rows.getD i [])).getD j .na
      = fillValue ((dtypes df).getD j .object) ((df.rows.getD i []).getD j .na) := by
    rw [List.getD_eq_getElem _ _ (show j <
        (List.zipWith fillValue (dtypes df) (df.rows.getD i [])).length by
      rw [hzl]; exact hj)]
    rw [List.getElem_zipWith,
      List.getD_eq_getElem _ _ (show j < (dtypes df).length by
        rw [length_dtypes]; exact hj),
      List.getD_eq_getElem _ _ (show j < (df.rows.getD i []).length by
        rw [hr]; exact hj)]
  change ((df.rows.map (fun r => List.zipWith fillValue (dtypes df) r)).getD i []).getD
      j Value.na = _
  rw [h1, h2, getD_dtypes df j hj]
  rfl

lemma convert_types_eq_ok {df : DF}
    (hall : ∀ c ∈ expectedCols, df.cols.contains c = true) :
    convert_types df =
      .ok ⟨df.cols, df.rows.map (fun r => List.zipWith applyCoerce df.cols r)⟩ := by
  unfold convert_types
  have hnone : expectedCols.find? (fun c => !(df.cols.contains c)) = none := by
    rw [List.find?_eq_none]
    intro c hc
    have h := hall c hc
    simp only [h]
    simp
  rw [hnone]

lemma convert_types_ok_inv {df m : DF} (h : convert_types df = .ok m) :
    m = ⟨df.cols, df.rows.map (fun r => List.zipWith applyCoerce df.cols r)⟩ ∧
      ∀ c ∈ expectedCols, df.cols.contains c = true := by
  unfold convert_types at h
  split at h
  · exact absurd h (by simp)
  next hnone =>
    refine ⟨by injection h with h2; exact h2.symm, ?_⟩
    intro c hc
    have := List.find?_eq_none.mp hnone c hc
    simpa using this

lemma convert_types_err_inv {df : DF} {c : String}
    (h : convert_types df = .error c) :
    c ∈ expectedCols ∧ df.cols.contains c = false := by
  unfold convert_types at h
  split at h
  next c0 hsome =>
    injection h with h2
    subst h2
    refine ⟨List.mem_of_find?_eq_some hsome, ?_⟩
    have := List.find?_some hsome
    simpa using this
  · exact absurd h (by simp)

lemma normalize_ok_inv {df m : DF} (h : normalize df = .ok m) :
    m.cols = df.cols ∧ m.rows.length = df.rows.length ∧
      ∀ c ∈ expectedCols, df.cols.contains c = true := by
  unfold normalize at h
  obtain ⟨hm, hall⟩ := convert_types_ok_inv h
  subst hm
  exact ⟨rfl, by simp [fillna_rows_length], hall⟩

lemma normalize_eq_ok {df : DF}
    (hall : ∀ c ∈ expectedCols, df.cols.contains c = true) :
    ∃ m, normalize df = .ok m := by
  refine ⟨_, convert_types_eq_ok ?_⟩
  simpa [fillna_cols] using hall

lemma normalize_err_inv {df : DF} {c : String} (h : normalize df = .error c) :
    c ∈ expectedCols ∧ df.cols.contains c = false := by
  unfold normalize at h
  simpa [fillna_cols] using convert_types_err_inv h

lemma cell_normalize {df m : DF} (hw : widthOK df = true)
    (h : normalize df = .ok m) (i j : Nat)
    (hi : i < df.rows.length) (hj : j < df.cols.length) :
    cell m i j =
      applyCoerce (df.cols.getD j "")
        (fillValue (dtypeOf (colCells df j)) (cell df i j)) := by
  unfold normalize at h
  obtain ⟨hm, -⟩ := convert_types_ok_inv h
  subst hm
  have hfr : (fillna df).rows.length = df.rows.length := fillna_rows_length df
  have hrl : ((fillna df).rows.getD i []).length = df.cols.length :=
    fillna_row_length hw i hi
  have h1 : ((fillna df).rows.map
      (fun r => List.zipWith applyCoerce (fillna df).cols r)).getD i []
      = List.zipWith applyCoerce (fillna df).cols ((fillna df).rows.getD i []) := by
    rw [List.getD_eq_getElem _ _ (show i < ((fillna df).rows.map
        (fun r => List.zipWith applyCoerce (fillna df).cols r)).length by
      simpa [hfr] using hi)]
    rw [List.getElem_map, List.getD_eq_getElem _ _ (show i < (fillna df).rows.length by
      rw [hfr]; exact hi)]
  have hzl : (List.zipWith applyCoerce (fillna df).cols
      ((fillna df).rows.getD i [])).length = df.cols.length := by
    rw [List.length_zipWith, fillna_cols, hrl, Nat.min_self]
  have h2 : (List.zipWith applyCoerce (fillna df).cols
        ((fillna df).rows.getD i [])).getD j .na
      = applyCoerce ((fillna df).cols.getD j "")
          (((fillna df).rows.getD i []).getD j .na) := by
    rw [List.getD_eq_getElem _ _ (show j < (List.zipWith applyCoerce (fillna df).cols
        ((fillna df).rows.getD i [])).length by rw [hzl]; exact hj)]
    rw [List.getElem_zipWith,
      List.getD_eq_getElem _ _ (show j < (fillna df).cols.length by
        rw [fillna_cols]; exact hj),
      List.getD_eq_getElem _ _ (show j < ((fillna df).rows.getD i []).length by
        rw [hrl]; exact hj)]
  change (((fillna df).rows.map
      (fun r => List.zipWith applyCoerce (fillna df).cols r)).getD i []).getD
      j Value.na = _
  rw [h1, h2]
  have hcell := cell_fillna hw i j hi hj
  rw [show cell (fillna df) i j
      = ((fillna df).rows.getD i []).getD j Value.na from rfl] at hcell
  rw [hcell]
  rfl

lemma normalize_ok_width {df m : DF} (hw : widthOK df = true)
    (h : normalize df = .ok m) : widthOK m = true := by
  unfold normalize at h
  obtain ⟨hm, -⟩ := convert_types_ok_inv h
  subst hm
  rw [widthOK, List.all_eq_true]
  intro r hr
  simp only [List.mem_map] at hr
  obtain ⟨r0, hr0, hrr⟩ := hr
  subst hrr
  simp only [decide_eq_true_eq]
  rw [List.length_zipWith, fillna_cols]
  simp only [fillna] at hr0
  simp only [List.mem_map] at hr0
  obtain ⟨r1, hr1, hrr1⟩ := hr0
  subst hrr1
  rw [List.length_zipWith, length_dtypes, widthOK_row hw hr1]
  simp

lemma getD_replicate_na (n j : Nat) : (List.replicate n Value.na).getD j .na = .na := by
  by_cases h : j < n
  · rw [List.getD_eq_getElem _ _ (by simpa using h), List.getElem_replicate]
  · exact List.getD_eq_default _ _ (by simpa using Nat.le_of_not_lt h)

lemma getD_mem_or (l : List Value) (i : Nat) (d : Value) :
    l.getD i d ∈ l ∨ l.getD i d = d := by
  by_cases h : i < l.length
  · rw [List.getD_eq_getElem _ _ h]
    exact Or.inl (List.getElem_mem h)
  · exact Or.inr (List.getD_eq_default _ _ (Nat.le_of_not_lt h))

lemma mergeDF_ok_inv {f g m : DF} (h : mergeDF f g = .ok m) :
    m = ⟨mergedCols f g,
          mergedRows f g (f.cols.indexOf keyCol) (g.cols.indexOf keyCol)⟩ ∧
      keyCol ∈ f.cols ∧ keyCol ∈ g.cols := by
  unfold mergeDF at h
  split at h
  next hc =>
    injection h with h2
    rw [Bool.and_eq_true] at hc
    exact ⟨h2.symm, by simpa using hc.1, by simpa using hc.2⟩
  · exact absurd h (by simp)

lemma length_dropIdx {l : List Value} {i : Nat} (h : i < l.length) :
    (dropIdx l i).length = l.length - 1 := by
  simp only [dropIdx, List.length_append, List.length_take, List.length_drop]
  omega

lemma mem_dropIdx {l : List Value} {i : Nat} {v : Value} (h : v ∈ dropIdx l i) :
    v ∈ l := by
  simp only [dropIdx, List.mem_append] at h
  rcases h with h | h
  · exact List.mem_of_mem_take h
  · exact List.mem_of_mem_drop h

lemma leftBlock_ne_nil (g : DF) (li ri : Nat) (rf : List Value) :
    leftBlock g li ri rf ≠ [] := by
  unfold leftBlock
  split
  · simp
  next hne =>
    rw [Bool.not_eq_true, List.isEmpty_eq_false] at hne
    simpa using hne

lemma mem_leftBlock_inv {g : DF} {li ri : Nat} {rf row : List Value}
    (h : row ∈ leftBlock g li ri rf) :
    (row = rf ++ List.replicate (g.cols.length - 1) .na) ∨
      ∃ rg ∈ g.rows, row = rf ++ dropIdx rg ri ∧
        rg.getD ri .na = rf.getD li .na := by
  unfold leftBlock at h
  split at h
  · simp only [List.mem_singleton] at h
    exact Or.inl h
  · simp only [List.mem_map] at h
    obtain ⟨rg, hrg, hrow⟩ := h
    simp only [matchRows, List.mem_filter, decide_eq_true_eq] at hrg
    exact Or.inr ⟨rg, hrg.1, hrow.symm, hrg.2⟩

lemma mem_mergedRows_inv {f g : DF} {li ri : Nat} {row : List Value}
    (h : row ∈ mergedRows f g li ri) :
    (∃ rf ∈ f.rows,
      (row = rf ++ List.replicate (g.cols.length - 1) .na ∧
        ∀ rg ∈ g.rows, rg.getD ri .na ≠ rf.getD li .na) ∨
      ∃ rg ∈ g.rows, row = rf ++ dropIdx rg ri ∧
        rg.getD ri .na = rf.getD li .na) ∨
    ∃ rg ∈ g.rows, row = rightOnlyRow f li ri rg ∧
      ∀ rf ∈ f.rows, rf.getD li .na ≠ rg.getD ri .na := by
  unfold mergedRows at h
  rw [List.mem_append] at h
  rcases h with h | h
  · rw [List.mem_flatMap] at h
    obtain ⟨rf, hrf, hrow⟩ := h
    left
    refine ⟨rf, hrf, ?_⟩
    unfold leftBlock at hrow
    split at hrow
    next hemp =>
      simp only [List.mem_singleton] at hrow
      rw [List.isEmpty_iff] at hemp
      refine Or.inl ⟨hrow, ?_⟩
      intro rg hrg hk
      have : rg ∈ matchRows g li ri rf := by
        simp only [matchRows, List.mem_filter, decide_eq_true_eq]
        exact ⟨hrg, hk⟩
      rw [hemp] at this
      exact absurd this (List.not_mem_nil rg)
    · simp only [List.mem_map] at hrow
      obtain ⟨rg, hrg, hrow⟩ := hrow
      simp only [matchRows, List.mem_filter, decide_eq_true_eq] at hrg
      exact Or.inr ⟨rg, hrg.1, hrow.symm, hrg.2⟩
  · rw [List.mem_map] at h
    obtain ⟨rg, hrg, hrow⟩ := h
    simp only [unmatchedRight, List.mem_filter] at hrg
    right
    refine ⟨rg, hrg.1, hrow.symm, ?_⟩
    intro rf hrf hk
    have h2 := hrg.2
    simp only [Bool.not_eq_true', List.any_eq_false, decide_eq_true_eq] at h2
    exact h2 rf hrf hk

lemma left_mem_mergedRows {f : DF} (g : DF) (li ri : Nat) {rf : List Value}
    (hrf : rf ∈ f.rows) :
    ∃ row ∈ mergedRows f g li ri, ∃ tail, row = rf ++ tail := by
  obtain ⟨row, hrow⟩ := List.exists_mem_of_ne_nil _ (leftBlock_ne_nil g li ri rf)
  refine ⟨row, ?_, ?_⟩
  · unfold mergedRows
    exact List.mem_append_left _ (List.mem_flatMap.mpr ⟨rf, hrf, hrow⟩)
  · rcases mem_leftBlock_inv hrow with h | ⟨rg, _, h, -⟩
    · exact ⟨_, h⟩
    · exact ⟨_, h⟩

lemma matched_right_mem_mergedRows {f g : DF} {li ri : Nat}
    {rf rg : List Value} (hrf : rf ∈ f.rows) (hrg : rg ∈ g.rows)
    (hk : rg.getD ri .na = rf.getD li .na) :
    rf ++ dropIdx rg ri ∈ mergedRows f g li ri := by
  have hms : rg ∈ matchRows g li ri rf := by
    simp only [matchRows, List.mem_filter, decide_eq_true_eq]
    exact ⟨hrg, hk⟩
  have hblock : rf ++ dropIdx rg ri ∈ leftBlock g li ri rf := by
    unfold leftBlock
    split
    next hemp =>
      rw [List.isEmpty_iff] at hemp
      rw [hemp] at hms
      exact absurd hms (List.not_mem_nil rg)
    · exact List.mem_map.mpr ⟨rg, hms, rfl⟩
  unfold mergedRows
  exact List.mem_append_left _ (List.mem_flatMap.mpr ⟨rf, hrf, hblock⟩)

lemma unmatched_right_mem_mergedRows {f g : DF} {li ri : Nat}
    {rg : List Value} (hrg : rg ∈ g.rows)
    (hnm : ∀ rf ∈ f.rows, rf.getD li .na ≠ rg.getD ri .na) :
    rightOnlyRow f li ri rg ∈ mergedRows f g li ri := by
  have hmem : rg ∈ unmatchedRight f g li ri := by
    simp only [unmatchedRight, List.mem_filter]
    refine ⟨hrg, ?_⟩
    simp only [Bool.not_eq_true', List.any_eq_false, decide_eq_true_eq]
    exact hnm
  unfold mergedRows
  exact List.mem_append_right _ (List.mem_map.mpr ⟨rg, hmem, rfl⟩)

lemma rightOnlyRow_key {f : DF} {li ri : Nat} (rg : List Value)
    (hli : li < f.cols.length) :
    (rightOnlyRow f li ri rg).getD li .na = rg.getD ri .na := by
  unfold rightOnlyRow
  rw [List.getD_append _ _ _ _ (by simpa using hli)]
  rw [List.getD_eq_getElem _ _ (by simpa using hli)]
  rw [List.getElem_set_self]

lemma rightOnlyRow_left_na {f : DF} {li ri : Nat} (rg : List Value)
    {j : Nat} (hj : j < f.cols.length) (hne : li ≠ j) :
    (rightOnlyRow f li ri rg).getD j .na = .na := by
  unfold rightOnlyRow
  rw [List.getD_append _ _ _ _ (by simpa using hj)]
  rw [List.getD_eq_getElem _ _ (by simpa using hj)]
  rw [List.getElem_set_ne hne, List.getElem_replicate]

lemma length_flatMap_of_forall_one {α β : Type} (l : List α) (fn : α → List β)
    (h : ∀ a ∈ l, (fn a).length = 1) : (l.flatMap fn).length = l.length := by
  induction l with
  | nil => rfl
  | cons a t ih =>
    rw [List.flatMap_cons, List.length_append, h a (List.mem_cons_self a t),
      ih (fun b hb => h b (List.mem_cons_of_mem a hb))]
    simp [Nat.add_comm]

lemma le_length_flatMap_of_forall_pos {α β : Type} (l : List α) (fn : α → List β)
    (h : ∀ a ∈ l, 1 ≤ (fn a).length) : l.length ≤ (l.flatMap fn).length := by
  induction l with
  | nil => simp
  | cons a t ih =>
    rw [List.flatMap_cons, List.length_append, List.length_cons]
    have h1 := h a (List.mem_cons_self a t)
    have h2 := ih (fun b hb => h b (List.mem_cons_of_mem a hb))
    omega

lemma leftBlock_single_of_nomatch {g : DF} {li ri : Nat} {rf : List Value}
    (hd : ∀ rg ∈ g.rows, rg.getD ri .na ≠ rf.getD li .na) :
    leftBlock g li ri rf = [rf ++ List.replicate (g.cols.length - 1) .na] := by
  unfold leftBlock
  have hms : matchRows g li ri rf = [] := by
    unfold matchRows
    rw [List.filter_eq_nil_iff]
    intro rg hrg
    simpa using hd rg hrg
  rw [hms]
  simp

lemma unmatchedRight_of_disjoint {f g : DF} {li ri : Nat}
    (hd : ∀ rf ∈ f.rows, ∀ rg ∈ g.rows, rf.getD li .na ≠ rg.getD ri .na) :
    unmatchedRight f g li ri = g.rows := by
  unfold unmatchedRight
  rw [List.filter_eq_self]
  intro rg hrg
  simp only [Bool.not_eq_true', List.any_eq_false, decide_eq_true_eq]
  intro rf hrf
  exact hd rf hrf rg hrg

lemma length_mergedRows_disjoint {f g : DF} {li ri : Nat}
    (hd : ∀ rf ∈ f.rows, ∀ rg ∈ g.rows, rf.getD li .na ≠ rg.getD ri .na) :
    (mergedRows f g li ri).length = f.rows.length + g.rows.length := by
  unfold mergedRows
  rw [List.length_append, List.length_map, unmatchedRight_of_disjoint hd]
  congr 1
  apply length_flatMap_of_forall_one
  intro rf hrf
  rw [leftBlock_single_of_nomatch (fun rg hrg => fun he => hd rf hrf rg hrg he.symm)]
  rfl

lemma le_length_mergedRows (f g : DF) (li ri : Nat) :
    f.rows.length ≤ (mergedRows f g li ri).length := by
  unfold mergedRows
  rw [List.length_append]
  have := le_length_flatMap_of_forall_pos f.rows (leftBlock g li ri)
    (fun rf _ => by
      have := leftBlock_ne_nil g li ri rf
      have h2 : 0 < (leftBlock g li ri rf).length := List.length_pos.mpr this
      omega)
  omega

lemma length_filter_ne_of_nodup (l : List String) (a : String)
    (hn : l.Nodup) (ha : a ∈ l) :
    (l.filter (fun c => c ≠ a)).length = l.length - 1 := by
  induction l with
  | nil => cases ha
  | cons b t ih =>
    rw [List.nodup_cons] at hn
    rw [List.filter_cons]
    by_cases hba : b = a
    · subst hba
      have hft : t.filter (fun c => decide (c ≠ b)) = t := by
        rw [List.filter_eq_self]
        intro c hc
        simp only [decide_eq_true_eq]
        intro he
        exact hn.1 (he ▸ hc)
      rw [if_neg (by simp : ¬(decide (b ≠ b) = true)), hft]
      simp
    · have hat : a ∈ t := by
        rcases List.mem_cons.mp ha with h | h
        · exact absurd h.symm hba
        · exact h
      have htpos : 0 < t.length := List.length_pos.mpr (List.ne_nil_of_mem hat)
      have hih := ih hn.2 hat
      rw [if_pos (by simpa using hba : decide (b ≠ a) = true), List.length_cons, hih]
      simp only [List.length_cons]
      omega

lemma length_mergedCols {f g : DF} (hg : g.cols.Nodup) (hkg : keyCol ∈ g.cols) :
    (mergedCols f g).length = f.cols.length + (g.cols.length - 1) := by
  unfold mergedCols
  rw [List.length_append, List.length_map, List.length_map,
    length_filter_ne_of_nodup g.cols keyCol hg hkg]

lemma widthOK_merged {f g : DF} (hwf : widthOK f = true) (hwg : widthOK g = true)
    (hg : g.cols.Nodup) (_hkf : keyCol ∈ f.cols) (hkg : keyCol ∈ g.cols) :
    widthOK ⟨mergedCols f g,
      mergedRows f g (f.cols.indexOf keyCol) (g.cols.indexOf keyCol)⟩ = true := by
  set li := f.cols.indexOf keyCol
  set ri := g.cols.indexOf keyCol
  have hri : ri < g.cols.length := List.indexOf_lt_length.mpr hkg
  rw [widthOK, List.all_eq_true]
  intro row hrow
  simp only [decide_eq_true_eq]
  show row.length = (mergedCols f g).length
  rw [length_mergedCols hg hkg]
  rcases mem_mergedRows_inv hrow with ⟨rf, hrf, hcase⟩ | ⟨rg, hrg, hrow2, -⟩
  · have hrfl : rf.length = f.cols.length := widthOK_row hwf hrf
    rcases hcase with ⟨hrow2, -⟩ | ⟨rg, hrg, hrow2, -⟩
    · subst hrow2
      simp [hrfl]
    · subst hrow2
      have hrgl : rg.length = g.cols.length := widthOK_row hwg hrg
      rw [List.length_append, hrfl, length_dropIdx (by rw [hrgl]; exact hri), hrgl]
  · subst hrow2
    have hrgl : rg.length = g.cols.length := widthOK_row hwg hrg
    unfold rightOnlyRow
    rw [List.length_append, List.length_set, List.length_replicate,
      length_dropIdx (by rw [hrgl]; exact hri), hrgl]

lemma rawDF_iff {df : DF} :
    rawDF df = true ↔ ∀ r ∈ df.rows, ∀ v ∈ r, v.isRaw = true := by
  unfold rawDF
  rw [List.all_eq_true]
  constructor
  · intro h r hr v hv
    have := h r hr
    rw [List.all_eq_true] at this
    exact this v hv
  · intro h r hr
    rw [List.all_eq_true]
    exact h r hr

lemma rawDF_merged {f g : DF} {li ri : Nat}
    (hrf : rawDF f = true) (hrg : rawDF g = true) :
    rawDF ⟨mergedCols f g, mergedRows f g li ri⟩ = true := by
  rw [rawDF_iff]
  intro row hrow v hv
  have rawF := rawDF_iff.mp hrf
  have rawG := rawDF_iff.mp hrg
  have hpad : ∀ n, ∀ w ∈ List.replicate n Value.na, Value.isRaw w = true := by
    intro n w hw
    rw [List.eq_of_mem_replicate hw]
    rfl
  rcases mem_mergedRows_inv hrow with ⟨rf0, hrf0, hcase⟩ | ⟨rg0, hrg0, hrow2, -⟩
  · rcases hcase with ⟨hrow2, -⟩ | ⟨rg0, hrg0, hrow2, -⟩
    · subst hrow2
      rcases List.mem_append.mp hv with h | h
      · exact rawF rf0 hrf0 v h
      · exact hpad _ v h
    · subst hrow2
      rcases List.mem_append.mp hv with h | h
      · exact rawF rf0 hrf0 v h
      · exact rawG rg0 hrg0 v (mem_dropIdx h)
  · subst hrow2
    unfold rightOnlyRow at hv
    rcases List.mem_append.mp hv with h | h
    · rcases List.mem_or_eq_of_mem_set h with h2 | h2
      · exact hpad _ v h2
      · subst h2
        rcases getD_mem_or rg0 ri .na with h3 | h3
        · exact rawG rg0 hrg0 _ h3
        · rw [h3]
          rfl
    · exact rawG rg0 hrg0 v (mem_dropIdx h)

lemma colCells_raw {df : DF} (hr : rawDF df = true) (j : Nat) :
    ∀ v ∈ colCells df j, v.isRaw = true := by
  intro v hv
  unfold colCells at hv
  rw [List.mem_map] at hv
  obtain ⟨r, hr2, hv2⟩ := hv
  subst hv2
  rcases getD_mem_or r j .na with h | h
  · exact rawDF_iff.mp hr r hr2 _ h
  · rw [h]
    rfl

lemma dtypeOf_raw_ne_datetime {cs : List Value}
    (h : ∀ v ∈ cs, v.isRaw = true) : dtypeOf cs ≠ .datetime := by
  unfold dtypeOf
  split
  · simp
  next hnum =>
    split
    next hdate =>
      exfalso
      apply hnum
      rw [List.all_eq_true] at hdate ⊢
      intro v hv
      have h1 := h v hv
      have h2 := hdate v hv
      cases v <;> simp_all [Value.isRaw, Value.isNa, Value.isDate, Value.isNum]
    · simp

lemma fillValue_na_sentinel {dt : Dtype} (hdt : dt ≠ .datetime) :
    fillValue dt .na = .num 0 ∨ fillValue dt .na = .str "Unknown" := by
  cases dt with
  | numeric => exact Or.inl rfl
  | datetime => exact absurd rfl hdt
  | object => exact Or.inr rfl

lemma fillValue_of_ne_na {dt : Dtype} {v : Value} (hv : v ≠ .na) :
    fillValue dt v = v := by
  cases dt <;> cases v <;> first | rfl | exact absurd rfl hv

lemma fillValue_ne_na {dt : Dtype} {v : Value} (hdt : dt ≠ .datetime) :
    fillValue dt v ≠ .na := by
  by_cases hv : v = .na
  · subst hv
    rcases fillValue_na_sentinel hdt with h | h <;> rw [h] <;> simp
  · rw [fillValue_of_ne_na hv]
    exact hv

lemma expectedCols_eq : expectedCols = dateColNames ++ timeColNames := rfl

lemma mem_expected_iff {c : String} :
    c ∈ expectedCols ↔ c ∈ dateColNames ∨ c ∈ timeColNames := by
  rw [expectedCols_eq, List.mem_append]

lemma applyCoerce_not_designated {c : String} {v : Value}
    (hc : c ∉ expectedCols) : applyCoerce c v = v := by
  rw [mem_expected_iff] at hc
  push_neg at hc
  unfold applyCoerce
  rw [if_neg hc.1, if_neg hc.2]

lemma applyCoerce_sentinel_na {c : String} (hc : c ∈ expectedCols) :
    applyCoerce c (.num 0) = .na ∧ applyCoerce c (.str "Unknown") = .na := by
  have hdisj : ∀ c0 ∈ timeColNames, c0 ∉ dateColNames := by decide
  rcases mem_expected_iff.mp hc with h | h
  · constructor <;> · unfold applyCoerce; rw [if_pos h]; decide
  · have hnd : c ∉ dateColNames := hdisj c h
    constructor <;> · unfold applyCoerce; rw [if_neg hnd, if_pos h]; decide

lemma append_forest_ne_keyCol (n : String) : n ++ "_forest" ≠ keyCol := by
  intro h
  have hd : n.data ++ "_forest".data = keyCol.data := by
    rw [← String.data_append, h]
  have h7 : ("_forest".data).length = 7 := by decide
  have h11 : (keyCol.data).length = 11 := by decide
  have hlen : n.data.length + 7 = 11 := by
    have hc := congrArg List.length hd
    rw [List.length_append, h7, h11] at hc
    exact hc
  have hlen4 : n.data.length = 4 := by omega
  have hdrop : "_forest".data = keyCol.data.drop 4 := by
    rw [← hd, ← hlen4, List.drop_left]
  exact absurd hdrop (by decide)

lemma append_grassland_ne_keyCol (n : String) : n ++ "_grassland" ≠ keyCol := by
  intro h
  have hd : n.data ++ "_grassland".data = keyCol.data := by
    rw [← String.data_append, h]
  have h10 : ("_grassland".data).length = 10 := by decide
  have h11 : (keyCol.data).length = 11 := by decide
  have hlen : n.data.length + 10 = 11 := by
    have hc := congrArg List.length hd
    rw [List.length_append, h10, h11] at hc
    exact hc
  have hlen1 : n.data.length = 1 := by omega
  have hdrop : "_grassland".data = keyCol.data.drop 1 := by
    rw [← hd, ← hlen1, List.drop_left]
  exact absurd hdrop (by decide)

lemma renameL_eq_keyCol_iff (gcols : List String) (c : String) :
    renameL gcols c = keyCol ↔ c = keyCol := by
  unfold renameL
  split
  next hcond =>
    rw [Bool.and_eq_true, decide_eq_true_eq] at hcond
    constructor
    · intro h
      exact absurd h (append_forest_ne_keyCol c)
    · intro h
      exact absurd h hcond.1
  · exact Iff.rfl

lemma renameR_ne_keyCol (fcols : List String) {c : String} (hc : c ≠ keyCol) :
    renameR fcols c ≠ keyCol := by
  unfold renameR
  split
  · exact append_grassland_ne_keyCol c
  · exact hc

lemma count_map_eq_count (l : List String) (fn : String → String) (a : String)
    (h : ∀ c, fn c = a ↔ c = a) : (l.map fn).count a = l.count a := by
  induction l with
  | nil => rfl
  | cons b t ih =>
    rw [List.map_cons, List.count_cons, List.count_cons, ih]
    congr 1
    by_cases hb : b = a
    · rw [if_pos (by simpa using (h b).mpr hb), if_pos (by simpa using hb)]
    · rw [if_neg (by simpa using fun hx => hb ((h b).mp hx)),
        if_neg (by simpa using hb)]

lemma count_keyCol_mergedCols {f g : DF} (hf : f.cols.Nodup)
    (hkf : keyCol ∈ f.cols) : (mergedCols f g).count keyCol = 1 := by
  unfold mergedCols
  rw [List.count_append]
  have h1 : (f.cols.map (renameL g.cols)).count keyCol = f.cols.count keyCol :=
    count_map_eq_count _ _ _ (fun c => renameL_eq_keyCol_iff g.cols c)
  have h2 : ((g.cols.filter (fun c => c ≠ keyCol)).map (renameR f.cols)).count keyCol
      = 0 := by
    rw [List.count_eq_zero]
    intro hmem
    rw [List.mem_map] at hmem
    obtain ⟨c, hc, hcr⟩ := hmem
    rw [List.mem_filter, decide_eq_true_eq] at hc
    exact renameR_ne_keyCol f.cols hc.2 hcr
  rw [h1, h2, List.count_eq_one_of_mem hf hkf]

lemma renameL_keyCol (gcols : List String) : renameL gcols keyCol = keyCol := by
  unfold renameL
  split
  next hcond =>
    rw [Bool.and_eq_true, decide_eq_true_eq] at hcond
    exact absurd rfl hcond.1
  · rfl

lemma mergedCols_key_at_indexOf {f g : DF} (hkf : keyCol ∈ f.cols) :
    (mergedCols f g).getD (f.cols.indexOf keyCol) "" = keyCol := by
  have hli : f.cols.indexOf keyCol < f.cols.length := List.indexOf_lt_length.mpr hkf
  unfold mergedCols
  rw [List.getD_append _ _ _ _ (by simpa using hli)]
  rw [List.getD_eq_getElem _ _ (by simpa using hli)]
  rw [List.getElem_map]
  rw [List.getElem_indexOf hli]
  exact renameL_keyCol g.cols

lemma colliding_forest_mem_mergedCols {f g : DF} {c : String} (hcf : c ∈ f.cols)
    (hck : c ≠ keyCol) (hcg : c ∈ g.cols) : c ++ "_forest" ∈ mergedCols f g := by
  unfold mergedCols
  apply List.mem_append_left
  rw [List.mem_map]
  refine ⟨c, hcf, ?_⟩
  unfold renameL
  rw [if_pos]
  rw [Bool.and_eq_true, decide_eq_true_eq]
  exact ⟨hck, by simpa using hcg⟩

lemma colliding_grassland_mem_mergedCols {f g : DF} {c : String}
    (hcg : c ∈ g.cols) (hck : c ≠ keyCol) (hcf : c ∈ f.cols) :
    c ++ "_grassland" ∈ mergedCols f g := by
  unfold mergedCols
  apply List.mem_append_right
  rw [List.mem_map]
  refine ⟨c, ?_, ?_⟩
  · rw [List.mem_filter, decide_eq_true_eq]
    exact ⟨hcg, hck⟩
  · unfold renameR
    rw [if_pos (by simpa using hcf)]

lemma noncolliding_forest_mem_mergedCols {f g : DF} {c : String}
    (hcf : c ∈ f.cols) (hcg : c ∉ g.cols) : c ∈ mergedCols f g := by
  unfold mergedCols
  apply List.mem_append_left
  rw [List.mem_map]
  refine ⟨c, hcf, ?_⟩
  unfold renameL
  rw [if_neg]
  rw [Bool.and_eq_true]
  intro hcond
  have h2 := hcond.2
  exact hcg (by simpa using h2)

lemma noncolliding_grassland_mem_mergedCols {f g : DF} {c : String}
    (hcg : c ∈ g.cols) (hck : c ≠ keyCol) (hcf : c ∉ f.cols) :
    c ∈ mergedCols f g := by
  unfold mergedCols
  apply List.mem_append_right
  rw [List.mem_map]
  refine ⟨c, ?_, ?_⟩
  · rw [List.mem_filter, decide_eq_true_eq]
    exact ⟨hcg, hck⟩
  · unfold renameR
    rw [if_neg]
    simpa using hcf

lemma mem_mergedCols_inv {f g : DF} {c : String} (h : c ∈ mergedCols f g) :
    (∃ c0 ∈ f.cols, c = c0 ∨ c = c0 ++ "_forest") ∨
      (∃ c0 ∈ g.cols, c = c0 ∨ c = c0 ++ "_grassland") := by
  unfold mergedCols at h
  rcases List.mem_append.mp h with h | h
  · rw [List.mem_map] at h
    obtain ⟨c0, hc0, hcr⟩ := h
    left
    refine ⟨c0, hc0, ?_⟩
    unfold renameL at hcr
    split at hcr
    · exact Or.inr hcr.symm
    · exact Or.inl hcr.symm
  · rw [List.mem_map] at h
    obtain ⟨c0, hc0, hcr⟩ := h
    rw [List.mem_filter, decide_eq_true_eq] at hc0
    right
    refine ⟨c0, hc0.1, ?_⟩
    unfold renameR at hcr
    split at hcr
    · exact Or.inr hcr.symm
    · exact Or.inl hcr.symm

lemma mem_keyVals {df : DF} {k : Value} :
    k ∈ keyVals df ↔
      ∃ r ∈ df.rows, r.getD (df.cols.indexOf keyCol) .na = k := by
  unfold keyVals colCells
  rw [List.mem_map]

/-- C5 (join completeness): every species key appearing in either
per-habitat table appears as the key of at least one row of the merged
table, and a key present in only one input owns a row whose cells from
the other input are all missing (apart from the shared key cell). -/
theorem C5_join_completeness (f g m : DF)
    (hwf : widthOK f = true)
    (hm : mergeDF f g = .ok m) (k : Value) :
    ((k ∈ keyVals f ∨ k ∈ keyVals g) →
      ∃ r ∈ m.rows, r.getD (f.cols.indexOf keyCol) .na = k) ∧
    (k ∈ keyVals f → k ∉ keyVals g →
      ∃ r ∈ m.rows, r.getD (f.cols.indexOf keyCol) .na = k ∧
        ∀ j, f.cols.length ≤ j → r.getD j .na = .na) ∧
    (k ∈ keyVals g → k ∉ keyVals f →
      ∃ r ∈ m.rows, r.getD (f.cols.indexOf keyCol) .na = k ∧
        ∀ j, j < f.cols.length → j ≠ f.cols.indexOf keyCol →
          r.getD j .na = .na) := by
  obtain ⟨hmEq, hkf, hkg⟩ := mergeDF_ok_inv hm
  subst hmEq
  show ((k ∈ keyVals f ∨ k ∈ keyVals g) → ∃ r ∈ mergedRows f g _ _, _) ∧ _
  set li := f.cols.indexOf keyCol with hlidef
  set ri := g.cols.indexOf keyCol with hridef
  have hli : li < f.cols.length := List.indexOf_lt_length.mpr hkf
  refine ⟨?_, ?_, ?_⟩
  · rintro (hkL | hkR)
    · obtain ⟨rf, hrf, hrk⟩ := mem_keyVals.mp hkL
      obtain ⟨row, hrow, tail, htail⟩ :=
        left_mem_mergedRows g li ri hrf
      refine ⟨row, hrow, ?_⟩
      subst htail
      rw [List.getD_append _ _ _ _ (by rw [widthOK_row hwf hrf]; exact hli)]
      exact hrk
    · obtain ⟨rg, hrg, hrk⟩ := mem_keyVals.mp hkR
      by_cases hmatch : ∃ rf ∈ f.rows, rf.getD li .na = rg.getD ri .na
      · obtain ⟨rf, hrf, hrfk⟩ := hmatch
        refine ⟨rf ++ dropIdx rg ri,
          matched_right_mem_mergedRows hrf hrg hrfk.symm, ?_⟩
        rw [List.getD_append _ _ _ _ (by rw [widthOK_row hwf hrf]; exact hli)]
        rw [hrfk]
        exact hrk
      · push_neg at hmatch
        refine ⟨rightOnlyRow f li ri rg,
          unmatched_right_mem_mergedRows hrg hmatch, ?_⟩
        rw [rightOnlyRow_key rg hli]
        exact hrk
  · intro hkL hkR
    obtain ⟨rf, hrf, hrk⟩ := mem_keyVals.mp hkL
    have hnomatch : ∀ rg ∈ g.rows, rg.getD ri .na ≠ rf.getD li .na := by
      intro rg hrg he
      exact hkR (mem_keyVals.mpr ⟨rg, hrg, by rw [he, hrk]⟩)
    have hrow : rf ++ List.replicate (g.cols.length - 1) .na ∈
        mergedRows f g li ri := by
      unfold mergedRows
      apply List.mem_append_left
      apply List.mem_flatMap.mpr
      refine ⟨rf, hrf, ?_⟩
      rw [leftBlock_single_of_nomatch hnomatch]
      exact List.mem_singleton.mpr rfl
    refine ⟨_, hrow, ?_, ?_⟩
    · rw [List.getD_append _ _ _ _ (by rw [widthOK_row hwf hrf]; exact hli)]
      exact hrk
    · intro j hj
      rw [List.getD_append_right _ _ _ _ (by rw [widthOK_row hwf hrf]; exact hj)]
      exact getD_replicate_na _ _
  · intro hkR hkL
    obtain ⟨rg, hrg, hrk⟩ := mem_keyVals.mp hkR
    have hnomatch : ∀ rf ∈ f.rows, rf.getD li .na ≠ rg.getD ri .na := by
      intro rf hrf he
      exact hkL (mem_keyVals.mpr ⟨rf, hrf, by rw [he, hrk]⟩)
    refine ⟨rightOnlyRow f li ri rg,
      unmatched_right_mem_mergedRows hrg hnomatch, ?_, ?_⟩
    · rw [rightOnlyRow_key rg hli]
      exact hrk
    · intro j hj hne
      exact rightOnlyRow_left_na rg hj (fun he => hne he.symm)

/-- Witness: `C5_join_completeness` applied to the concrete example
tables and the key `2`, which appears only in the grassland table. -/
theorem C5_join_completeness_witness :
    widthOK exF = true ∧ mergeDF exF exG = .ok exMD ∧
      ((Value.num 2 ∈ keyVals exF ∨ Value.num 2 ∈ keyVals exG) →
        ∃ r ∈ exMD.rows, r.getD (exF.cols.indexOf keyCol) .na = .num 2) :=
  ⟨by decide, rfl,
    (C5_join_completeness exF exG exMD (by decide) rfl (.num 2)).1⟩

/-- C7 (suffixing discipline): in the merged table the key column appears
exactly once (at the key's left position, unsuffixed); colliding non-key
names acquire their habitat suffix; non-colliding names pass through. -/
theorem C7_suffixing_discipline (f g m : DF) (hf : f.cols.Nodup)
    (hm : mergeDF f g = .ok m) :
    m.cols.count keyCol = 1 ∧
    m.cols.getD (f.cols.indexOf keyCol) "" = keyCol ∧
    (∀ c ∈ f.cols, c ≠ keyCol → c ∈ g.cols → (c ++ "_forest") ∈ m.cols) ∧
    (∀ c ∈ g.cols, c ≠ keyCol → c ∈ f.cols → (c ++ "_grassland") ∈ m.cols) ∧
    (∀ c ∈ f.cols, c ∉ g.cols → c ∈ m.cols) ∧
    (∀ c ∈ g.cols, c ≠ keyCol → c ∉ f.cols → c ∈ m.cols) := by
  obtain ⟨hmEq, hkf, hkg⟩ := mergeDF_ok_inv hm
  subst hmEq
  exact ⟨count_keyCol_mergedCols hf hkf, mergedCols_key_at_indexOf hkf,
    fun c h1 h2 h3 => colliding_forest_mem_mergedCols h1 h2 h3,
    fun c h1 h2 h3 => colliding_grassland_mem_mergedCols h1 h2 h3,
    fun c h1 h2 => noncolliding_forest_mem_mergedCols h1 h2,
    fun c h1 h2 h3 => noncolliding_grassland_mem_mergedCols h1 h2 h3⟩

/-- Witness: `C7_suffixing_discipline` on the example tables; the
colliding `Date` column acquires both suffixes and the key stays. -/
theorem C7_suffixing_discipline_witness :
    exF.cols.Nodup ∧ exMD.cols.count keyCol = 1 ∧
      ("Date" ++ "_forest") ∈ exMD.cols ∧ ("Date" ++ "_grassland") ∈ exMD.cols ∧
      "Obs" ∈ exMD.cols := by
  have h := C7_suffixing_discipline exF exG exMD (by decide) rfl
  exact ⟨by decide, h.1,
    h.2.2.1 "Date" (by decide) (by decide) (by decide),
    h.2.2.2.1 "Date" (by decide) (by decide) (by decide),
    h.2.2.2.2.1 "Obs" (by decide) (by decide)⟩

lemma cell_eq_getD_row (df : DF) (i j : Nat) :
    cell df i j = (df.rows.getD i []).getD j .na := rfl

lemma merged_contains_key {f g : DF} (hwf : widthOK f = true)
    (hkf : keyCol ∈ f.cols) {k : Value}
    (hk : k ∈ keyVals f ∨ k ∈ keyVals g) :
    ∃ r ∈ mergedRows f g (f.cols.indexOf keyCol) (g.cols.indexOf keyCol),
      r.getD (f.cols.indexOf keyCol) .na = k := by
  set li := f.cols.indexOf keyCol
  set ri := g.cols.indexOf keyCol
  have hli : li < f.cols.length := List.indexOf_lt_length.mpr hkf
  rcases hk with hkL | hkR
  · obtain ⟨rf, hrf, hrk⟩ := mem_keyVals.mp hkL
    obtain ⟨row, hrow, tail, htail⟩ :=
      left_mem_mergedRows g li ri hrf
    refine ⟨row, hrow, ?_⟩
    subst htail
    rw [List.getD_append _ _ _ _ (by rw [widthOK_row hwf hrf]; exact hli)]
    exact hrk
  · obtain ⟨rg, hrg, hrk⟩ := mem_keyVals.mp hkR
    by_cases hmatch : ∃ rf ∈ f.rows, rf.getD li .na = rg.getD ri .na
    · obtain ⟨rf, hrf, hrfk⟩ := hmatch
      refine ⟨rf ++ dropIdx rg ri,
        matched_right_mem_mergedRows hrf hrg hrfk.symm, ?_⟩
      rw [List.getD_append _ _ _ _ (by rw [widthOK_row hwf hrf]; exact hli)]
      rw [hrfk]
      exact hrk
    · push_neg at hmatch
      refine ⟨rightOnlyRow f li ri rg,
        unmatched_right_mem_mergedRows hrg hmatch, ?_⟩
      rw [rightOnlyRow_key rg hli]
      exact hrk

lemma normalized_na_cell {md m : DF} (hw : widthOK md = true)
    (hraw : rawDF md = true) (hn : normalize md = .ok m) {i j : Nat}
    (hi : i < md.rows.length) (hj : j < md.cols.length)
    (hcell : cell md i j = .na) :
    (md.cols.getD j "" ∉ expectedCols →
      cell m i j = .num 0 ∨ cell m i j = .str "Unknown") ∧
    (md.cols.getD j "" ∈ expectedCols → cell m i j = .na) := by
  have hc := cell_normalize hw hn i j hi hj
  rw [hcell] at hc
  have hdt : dtypeOf (colCells md j) ≠ .datetime :=
    dtypeOf_raw_ne_datetime (colCells_raw hraw j)
  rcases fillValue_na_sentinel hdt with hfv | hfv <;> rw [hfv] at hc
  · constructor
    · intro hnd
      rw [hc, applyCoerce_not_designated hnd]
      exact Or.inl rfl
    · intro hd
      rw [hc]
      exact (applyCoerce_sentinel_na hd).1
  · constructor
    · intro hnd
      rw [hc, applyCoerce_not_designated hnd]
      exact Or.inr rfl
    · intro hd
      rw [hc]
      exact (applyCoerce_sentinel_na hd).2

lemma normalized_cell_not_na {md m : DF} (hw : widthOK md = true)
    (hraw : rawDF md = true) (hn : normalize md = .ok m) {i j : Nat}
    (hi : i < md.rows.length) (hj : j < md.cols.length)
    (hnd : md.cols.getD j "" ∉ expectedCols) :
    cell m i j ≠ .na ∧ (cell md i j ≠ .na → cell m i j = cell md i j) := by
  have hc := cell_normalize hw hn i j hi hj
  rw [applyCoerce_not_designated hnd] at hc
  have hdt : dtypeOf (colCells md j) ≠ .datetime :=
    dtypeOf_raw_ne_datetime (colCells_raw hraw j)
  constructor
  · rw [hc]
    exact fillValue_ne_na hdt
  · intro hv
    rw [hc, fillValue_of_ne_na hv]

/-- C6 (disjoint-key row count): merging two tables with no shared keys
yields as many rows as both inputs together, each single-origin row
holding sentinels (`0`/`"Unknown"`) in the opposite habitat's
non-date/time columns — its opposite date/time cells end as missing
markers, not sentinels — and in general the merged row count is at
least the larger of the two distinct-key counts. -/
theorem C6_disjoint_key_row_count (f g md m : DF)
    (hwf : widthOK f = true) (hwg : widthOK g = true)
    (hrf : rawDF f = true) (hrg : rawDF g = true)
    (hgn : g.cols.Nodup)
    (hmg : mergeDF f g = .ok md) (hn : normalize md = .ok m) :
    ((∀ k ∈ keyVals f, k ∉ keyVals g) →
      m.rows.length = f.rows.length + g.rows.length ∧
      ∀ i, i < md.rows.length →
        ((cell md i (f.cols.indexOf keyCol) ∈ keyVals f →
          ∀ j, f.cols.length ≤ j → j < md.cols.length →
            (md.cols.getD j "" ∉ expectedCols →
              cell m i j = .num 0 ∨ cell m i j = .str "Unknown") ∧
            (md.cols.getD j "" ∈ expectedCols → cell m i j = .na)) ∧
         (cell md i (f.cols.indexOf keyCol) ∈ keyVals g →
          ∀ j, j < f.cols.length → j ≠ f.cols.indexOf keyCol →
            (md.cols.getD j "" ∉ expectedCols →
              cell m i j = .num 0 ∨ cell m i j = .str "Unknown") ∧
            (md.cols.getD j "" ∈ expectedCols → cell m i j = .na)))) ∧
    max (keyVals f).dedup.length (keyVals g).dedup.length ≤ m.rows.length := by
  obtain ⟨hmEq, hkf, hkg⟩ := mergeDF_ok_inv hmg
  set li := f.cols.indexOf keyCol with hlidef
  set ri := g.cols.indexOf keyCol with hridef
  have hli : li < f.cols.length := List.indexOf_lt_length.mpr hkf
  have hri : ri < g.cols.length := List.indexOf_lt_length.mpr hkg
  have hwmd : widthOK md = true := by
    rw [hmEq]
    exact widthOK_merged hwf hwg hgn hkf hkg
  have hrmd : rawDF md = true := by
    rw [hmEq]
    exact rawDF_merged hrf hrg
  obtain ⟨hcols, hlen, -⟩ := normalize_ok_inv hn
  have hflen : f.cols.length ≤ md.cols.length := by
    rw [hmEq]
    show f.cols.length ≤ (mergedCols f g).length
    rw [length_mergedCols hgn hkg]
    omega
  constructor
  · intro hdisj
    have hdisj' : ∀ rf ∈ f.rows, ∀ rg ∈ g.rows,
        rf.getD li .na ≠ rg.getD ri .na := by
      intro rf hrf0 rg hrg0 he
      exact hdisj _ (mem_keyVals.mpr ⟨rf, hrf0, rfl⟩)
        (mem_keyVals.mpr ⟨rg, hrg0, he.symm⟩)
    constructor
    · rw [hlen, hmEq]
      exact length_mergedRows_disjoint hdisj'
    · intro i hi
      have hre : md.rows = mergedRows f g li ri := by rw [hmEq]
      have hrowmem : md.rows.getD i [] ∈ mergedRows f g li ri := by
        rw [← hre, List.getD_eq_getElem _ _ hi]
        exact List.getElem_mem hi
      rcases mem_mergedRows_inv hrowmem with
        ⟨rf0, hrf0, hcase⟩ | ⟨rg0, hrg0, hrow2, -⟩
      · have hrfl : rf0.length = f.cols.length := widthOK_row hwf hrf0
        rcases hcase with ⟨hrow2, -⟩ | ⟨rg0, hrg0, hrow2, hkeq⟩
        · have hkeycell : cell md i li = rf0.getD li .na := by
            rw [cell_eq_getD_row, hrow2,
              List.getD_append _ _ _ _ (by rw [hrfl]; exact hli)]
          constructor
          · intro _ j hjge hjlt
            have hcell : cell md i j = .na := by
              rw [cell_eq_getD_row, hrow2,
                List.getD_append_right _ _ _ _ (by rw [hrfl]; exact hjge)]
              exact getD_replicate_na _ _
            exact normalized_na_cell hwmd hrmd hn hi hjlt hcell
          · intro hkeyg
            rw [hkeycell] at hkeyg
            exact absurd hkeyg
              (hdisj _ (mem_keyVals.mpr ⟨rf0, hrf0, rfl⟩))
        · exact absurd hkeq (fun he => hdisj' rf0 hrf0 rg0 hrg0 he.symm)
      · have hkeycell : cell md i li = rg0.getD ri .na := by
          rw [cell_eq_getD_row, hrow2]
          exact rightOnlyRow_key rg0 hli
        constructor
        · intro hkeyf
          rw [hkeycell] at hkeyf
          exact absurd (mem_keyVals.mpr ⟨rg0, hrg0, rfl⟩) (hdisj _ hkeyf)
        · intro _ j hjlt hjne
          have hcell : cell md i j = .na := by
            rw [cell_eq_getD_row, hrow2]
            exact rightOnlyRow_left_na rg0 hjlt (fun he => hjne he.symm)
          exact normalized_na_cell hwmd hrmd hn hi
            (Nat.lt_of_lt_of_le hjlt hflen) hcell
  · have hbound : ∀ h : DF, (∀ k ∈ keyVals h, k ∈ keyVals f ∨ k ∈ keyVals g) →
        (keyVals h).dedup.length ≤ m.rows.length := by
      intro h hsub
      have hsub2 : ∀ k ∈ keyVals h,
          k ∈ (mergedRows f g li ri).map (fun r => r.getD li .na) := by
        intro k hk
        obtain ⟨r, hr, hkey⟩ := merged_contains_key hwf hkf (hsub k hk)
        exact List.mem_map.mpr ⟨r, hr, hkey⟩
      have hfin : (keyVals h).toFinset ⊆
          ((mergedRows f g li ri).map (fun r => r.getD li .na)).toFinset := by
        intro x hx
        rw [List.mem_toFinset] at hx ⊢
        exact hsub2 x hx
      have h1 : (keyVals h).dedup.length ≤
          ((mergedRows f g li ri).map (fun r => r.getD li .na)).length := by
        rw [← List.card_toFinset]
        exact le_trans (Finset.card_le_card hfin) (List.toFinset_card_le _)
      rw [List.length_map] at h1
      rw [hlen, hmEq]
      exact h1
    rw [Nat.max_le]
    exact ⟨hbound f (fun k hk => Or.inl hk), hbound g (fun k hk => Or.inr hk)⟩

/-- Witness: `C6_disjoint_key_row_count` on the example tables, whose
keys `1` and `2` are disjoint: the merged table has `1 + 1` rows. -/
theorem C6_disjoint_key_row_count_witness :
    (∀ k ∈ keyVals exF, k ∉ keyVals exG) ∧
      exM.rows.length = exF.rows.length + exG.rows.length := by
  have h := C6_disjoint_key_row_count exF exG exMD exM (by decide) (by decide)
    (by decide) (by decide) (by decide) rfl rfl
  exact ⟨by decide, (h.1 (by decide)).1⟩

/-- Counterexample to C6 as stated: on the example tables with disjoint
keys, the forest-origin row's `Date_grassland` cell (a column of the
opposite habitat) is the missing marker after normalization — it is not
sentinel-filled with `0` or `"Unknown"`. -/
theorem C6_sentinel_counterexample :
    (∀ k ∈ keyVals exF, k ∉ keyVals exG) ∧
    mergeDF exF exG = .ok exMD ∧ normalize exMD = .ok exM ∧
    exMD.cols.getD 5 "" = "Date_grassland" ∧
    cell exM 0 5 ≠ .num 0 ∧ cell exM 0 5 ≠ .str "Unknown" ∧
    cell exM 0 5 = .na :=
  ⟨by decide, rfl, rfl, by decide, by decide, by decide, by decide⟩

lemma cell_eq_getElem {df : DF} {i j : Nat} (hi : i < df.rows.length)
    (hj : j < (df.rows[i]).length) : cell df i j = df.rows[i][j] := by
  rw [cell_eq_getD_row, List.getD_eq_getElem _ _ hi, List.getD_eq_getElem _ _ hj]

lemma df_ext {a b : DF} (hc : a.cols = b.cols) (hr : a.rows = b.rows) :
    a = b := by
  cases a
  cases b
  cases hc
  cases hr
  rfl

lemma fillValue_datetime (v : Value) : fillValue .datetime v = v := by
  cases v <;> rfl

lemma coerceTime_shape (v : Value) :
    coerceTime v = .na ∨ ∃ a b c, coerceTime v = .time a b c := by
  cases v with
  | str s =>
    rcases hp : parseTimeStr s with - | ⟨⟨a, b, c⟩⟩
    · exact Or.inl (by simp [coerceTime, hp])
    · exact Or.inr ⟨a, b, c, by simp [coerceTime, hp]⟩
  | date y mo d => exact Or.inr ⟨0, 0, 0, rfl⟩
  | na => exact Or.inl rfl
  | num n => exact Or.inl rfl
  | time a b c => exact Or.inl rfl

lemma coerceDate_shape (v : Value) :
    coerceDate v = .na ∨ ∃ y mo d, coerceDate v = .date y mo d := by
  cases v with
  | str s =>
    rcases hp : parseDateStr s with - | ⟨⟨y, mo, d⟩⟩
    · exact Or.inl (by simp [coerceDate, hp])
    · exact Or.inr ⟨y, mo, d, by simp [coerceDate, hp]⟩
  | date y mo d => exact Or.inr ⟨y, mo, d, rfl⟩
  | na => exact Or.inl rfl
  | num n => exact Or.inl rfl
  | time a b c => exact Or.inl rfl

lemma coerceTime_fillValue_na_or_time (dt : Dtype) {v : Value}
    (hv : v = .na ∨ ∃ a b c, v = .time a b c) :
    coerceTime (fillValue dt v) = .na := by
  rcases hv with hv | ⟨a, b, c, hv⟩ <;> subst hv
  · cases dt <;> decide
  · rw [fillValue_of_ne_na (by simp)]
    rfl

lemma coerceDate_fillValue_na_or_date (dt : Dtype) {v : Value}
    (hv : v = .na ∨ ∃ y mo d, v = .date y mo d) :
    coerceDate (fillValue dt v) = v := by
  rcases hv with hv | ⟨y, mo, d, hv⟩ <;> subst hv
  · cases dt <;> decide
  · rw [fillValue_of_ne_na (by simp)]
    rfl

lemma applyCoerce_time {c : String} (hc : c ∈ timeColNames) (v : Value) :
    applyCoerce c v = coerceTime v := by
  have hdisj : ∀ c0 ∈ timeColNames, c0 ∉ dateColNames := by decide
  unfold applyCoerce
  rw [if_neg (hdisj c hc), if_pos hc]

lemma applyCoerce_date {c : String} (hc : c ∈ dateColNames) (v : Value) :
    applyCoerce c v = coerceDate v := by
  unfold applyCoerce
  rw [if_pos hc]

lemma length_colCells (df : DF) (j : Nat) :
    (colCells df j).length = df.rows.length := by
  simp [colCells]

lemma colCells_getD (df : DF) (j i : Nat) (h : i < df.rows.length) :
    (colCells df j).getD i .na = cell df i j := by
  unfold colCells
  rw [List.getD_eq_getElem _ _ (show i < (df.rows.map (fun r => r.getD j .na)).length by
    simpa using h)]
  rw [List.getElem_map, cell_eq_getD_row, List.getD_eq_getElem _ _ h]

/-- Counterexample to C2 as stated: normalizing the already-normalized
example table is not a no-op — the second pass wipes the parsed
time-of-day values (which `pd.to_datetime` cannot convert back) to
missing markers. -/
theorem C2_idempotence_counterexample :
    normalize exN = .ok exN1 ∧ normalize exN1 = .ok exN2 ∧ exN2 ≠ exN1 :=
  ⟨rfl, rfl, by decide⟩

/-- C2 (amended): re-normalizing a normalized table succeeds and leaves
every numeric, textual and date column unchanged, but maps every cell of
the four designated time columns to the missing marker; hence it is a
no-op exactly on tables whose time cells are already all missing. -/
theorem C2_renormalization (df df1 : DF) (hw : widthOK df = true)
    (h1 : normalize df = .ok df1) :
    ∃ df2, normalize df1 = .ok df2 ∧ df2.cols = df1.cols ∧
      df2.rows.length = df1.rows.length ∧
      (∀ i j, i < df1.rows.length → j < df1.cols.length →
        (df1.cols.getD j "" ∈ timeColNames → cell df2 i j = .na) ∧
        (df1.cols.getD j "" ∉ timeColNames → cell df2 i j = cell df1 i j)) ∧
      ((∀ i j, i < df1.rows.length → j < df1.cols.length →
          df1.cols.getD j "" ∈ timeColNames → cell df1 i j = .na) →
        df2 = df1) := by
  obtain ⟨hcols1, hlen1, hexp⟩ := normalize_ok_inv h1
  have hw1 : widthOK df1 = true := normalize_ok_width hw h1
  have hexp1 : ∀ c ∈ expectedCols, df1.cols.contains c = true := by
    rw [hcols1]
    exact hexp
  obtain ⟨df2, h2⟩ := normalize_eq_ok hexp1
  obtain ⟨hcols2, hlen2, -⟩ := normalize_ok_inv h2
  have hw2 : widthOK df2 = true := normalize_ok_width hw1 h2
  have hcellpart : ∀ i j, i < df1.rows.length → j < df1.cols.length →
      (df1.cols.getD j "" ∈ timeColNames → cell df2 i j = .na) ∧
      (df1.cols.getD j "" ∉ timeColNames → cell df2 i j = cell df1 i j) := by
    intro i j hi hj
    have hi0 : i < df.rows.length := by rw [← hlen1]; exact hi
    have hj0 : j < df.cols.length := by
      rw [← congrArg List.length hcols1]
      exact hj
    have hcc : df.cols.getD j "" = df1.cols.getD j "" := by rw [hcols1]
    have hc1 := cell_normalize hw h1 i j hi0 hj0
    rw [hcc] at hc1
    have hc2 := cell_normalize hw1 h2 i j hi hj
    by_cases hct : df1.cols.getD j "" ∈ timeColNames
    · refine ⟨fun _ => ?_, fun hnt => absurd hct hnt⟩
      rw [applyCoerce_time hct] at hc1 hc2
      have hshape : cell df1 i j = .na ∨ ∃ a b c, cell df1 i j = .time a b c := by
        rw [hc1]
        exact coerceTime_shape _
      rw [hc2]
      exact coerceTime_fillValue_na_or_time _ hshape
    · refine ⟨fun ht => absurd ht hct, fun _ => ?_⟩
      by_cases hcd : df1.cols.getD j "" ∈ dateColNames
      · rw [applyCoerce_date hcd] at hc1 hc2
        have hshape : cell df1 i j = .na ∨
            ∃ y mo d, cell df1 i j = .date y mo d := by
          rw [hc1]
          exact coerceDate_shape _
        rw [hc2]
        exact coerceDate_fillValue_na_or_date _ hshape
      · have hnd : df1.cols.getD j "" ∉ expectedCols := by
          rw [mem_expected_iff]
          rintro (h | h)
          · exact hcd h
          · exact hct h
        rw [applyCoerce_not_designated hnd] at hc1 hc2
        by_cases hna : cell df1 i j = .na
        · have hfna : fillValue (dtypeOf (colCells df j)) (cell df i j) = .na := by
            rw [← hc1]
            exact hna
          have hdt0 : dtypeOf (colCells df j) = .datetime := by
            by_contra hne
            exact (fillValue_ne_na hne) hfna
          have hcolseq : colCells df1 j = colCells df j := by
            apply List.ext_getElem
            · rw [length_colCells, length_colCells, hlen1]
            · intro i' hi1' hi2'
              rw [length_colCells] at hi1' hi2'
              rw [← List.getD_eq_getElem (colCells df1 j) Value.na
                  (show i' < (colCells df1 j).length by
                    rw [length_colCells]; exact hi1'),
                ← List.getD_eq_getElem (colCells df j) Value.na
                  (show i' < (colCells df j).length by
                    rw [length_colCells]; exact hi2'),
                colCells_getD df1 j i' hi1', colCells_getD df j i' hi2']
              have hi0' : i' < df.rows.length := hi2'
              have hc1' := cell_normalize hw h1 i' j hi0' hj0
              rw [hcc, applyCoerce_not_designated hnd, hdt0,
                fillValue_datetime] at hc1'
              exact hc1'
          rw [hc2, hcolseq, hdt0, hna, fillValue_datetime]
        · rw [hc2, fillValue_of_ne_na hna]
  refine ⟨df2, h2, hcols2, hlen2, hcellpart, ?_⟩
  intro hall
  apply df_ext hcols2
  apply List.ext_getElem hlen2
  intro i hi2 hi1
  apply List.ext_getElem
  · rw [widthOK_row hw2 (List.getElem_mem hi2),
      widthOK_row hw1 (List.getElem_mem hi1), hcols2]
  · intro j hj2 hj1
    have hjc : j < df1.cols.length := by
      rw [← widthOK_row hw1 (List.getElem_mem hi1)]
      exact hj1
    rw [← cell_eq_getElem hi2 hj2, ← cell_eq_getElem hi1 hj1]
    have hp := hcellpart i j hi1 hjc
    by_cases hct : df1.cols.getD j "" ∈ timeColNames
    · rw [hp.1 hct, hall i j hi1 hjc hct]
    · exact hp.2 hct

/-- Witness: `C2_renormalization` on the concrete example table; the
re-normalized table exists and its `Start_Time_forest` cell is wiped. -/
theorem C2_renormalization_witness :
    widthOK exN = true ∧ normalize exN = .ok exN1 ∧
      ∃ df2, normalize exN1 = .ok df2 ∧ df2.cols = exN1.cols ∧
        df2.rows.length = exN1.rows.length ∧
        (∀ i j, i < exN1.rows.length → j < exN1.cols.length →
          (exN1.cols.getD j "" ∈ timeColNames → cell df2 i j = .na) ∧
          (exN1.cols.getD j "" ∉ timeColNames → cell df2 i j = cell exN1 i j)) ∧
        ((∀ i j, i < exN1.rows.length → j < exN1.cols.length →
            exN1.cols.getD j "" ∈ timeColNames → cell exN1 i j = .na) →
          df2 = exN1) :=
  ⟨by decide, rfl, C2_renormalization exN exN1 (by decide) rfl⟩

/-- C1 (imputation totality): after merging two raw tables and
normalizing, no cell outside the six designated date/time columns is
missing; a cell that was missing in the merged table became `0` in a
numeric-dtype column and `"Unknown"` otherwise, and a present cell is
untouched. -/
theorem C1_imputation_totality (f g md m : DF)
    (hwf : widthOK f = true) (hwg : widthOK g = true)
    (hrf : rawDF f = true) (hrg : rawDF g = true)
    (hgn : g.cols.Nodup)
    (hmg : mergeDF f g = .ok md) (hn : normalize md = .ok m) :
    ∀ i j, i < m.rows.length → j < m.cols.length →
      md.cols.getD j "" ∉ expectedCols →
      cell m i j ≠ .na ∧
      (cell md i j = .na →
        (dtypeOf (colCells md j) = .numeric → cell m i j = .num 0) ∧
        (dtypeOf (colCells md j) ≠ .numeric → cell m i j = .str "Unknown")) ∧
      (cell md i j ≠ .na → cell m i j = cell md i j) := by
  obtain ⟨hmEq, hkf, hkg⟩ := mergeDF_ok_inv hmg
  have hwmd : widthOK md = true := by
    rw [hmEq]
    exact widthOK_merged hwf hwg hgn hkf hkg
  have hrmd : rawDF md = true := by
    rw [hmEq]
    exact rawDF_merged hrf hrg
  obtain ⟨hcols, hlen, -⟩ := normalize_ok_inv hn
  intro i j hi hj hnd
  have hi' : i < md.rows.length := by rw [← hlen]; exact hi
  have hj' : j < md.cols.length := by
    rw [← congrArg List.length hcols]
    exact hj
  have hc := cell_normalize hwmd hn i j hi' hj'
  rw [applyCoerce_not_designated hnd] at hc
  have hdt : dtypeOf (colCells md j) ≠ .datetime :=
    dtypeOf_raw_ne_datetime (colCells_raw hrmd j)
  refine ⟨?_, ?_, ?_⟩
  · rw [hc]
    exact fillValue_ne_na hdt
  · intro hna
    rw [hna] at hc
    constructor
    · intro hnum
      rw [hc, hnum]
      rfl
    · intro hnn
      cases hdteq : dtypeOf (colCells md j) with
      | numeric => exact absurd hdteq hnn
      | datetime => exact absurd hdteq hdt
      | object =>
        rw [hc, hdteq]
        rfl
  · intro hne
    rw [hc, fillValue_of_ne_na hne]

/-- Witness: `C1_imputation_totality` on the example tables — the
grassland row's missing `Obs` cell (textual column) ends `"Unknown"`,
and the all-missing `Wind` column (numeric dtype) ends `0`. -/
theorem C1_imputation_totality_witness :
    mergeDF exF exG = .ok exMD ∧ normalize exMD = .ok exM ∧
      exMD.cols.getD 4 "" = "Obs" ∧ cell exM 1 4 ≠ .na := by
  have h := C1_imputation_totality exF exG exMD exM (by decide) (by decide)
    (by decide) (by decide) (by decide) rfl rfl
  exact ⟨rfl, rfl, by decide, (h 1 4 (by decide) (by decide) (by decide)).1⟩

/-- C9 (merged-table key invariant): after merge and normalization every
row is full-width, its species key cell is not missing, no cell outside
the designated date/time columns is missing, and every column name is
the key or a (possibly suffixed) forest- or grassland-origin name. -/
theorem C9_key_invariant (f g md m : DF)
    (hwf : widthOK f = true) (hwg : widthOK g = true)
    (hrf : rawDF f = true) (hrg : rawDF g = true)
    (hgn : g.cols.Nodup)
    (hmg : mergeDF f g = .ok md) (hn : normalize md = .ok m) :
    widthOK m = true ∧
    (∀ i, i < m.rows.length → cell m i (f.cols.indexOf keyCol) ≠ .na) ∧
    (∀ i j, i < m.rows.length → j < m.cols.length →
      md.cols.getD j "" ∉ expectedCols → cell m i j ≠ .na) ∧
    (∀ c ∈ m.cols, (∃ c0 ∈ f.cols, c = c0 ∨ c = c0 ++ "_forest") ∨
      (∃ c0 ∈ g.cols, c = c0 ∨ c = c0 ++ "_grassland")) := by
  obtain ⟨hmEq, hkf, hkg⟩ := mergeDF_ok_inv hmg
  have hwmd : widthOK md = true := by
    rw [hmEq]
    exact widthOK_merged hwf hwg hgn hkf hkg
  have hrmd : rawDF md = true := by
    rw [hmEq]
    exact rawDF_merged hrf hrg
  obtain ⟨hcols, hlen, -⟩ := normalize_ok_inv hn
  have hli : f.cols.indexOf keyCol < f.cols.length :=
    List.indexOf_lt_length.mpr hkf
  have hgenna : ∀ i j, i < m.rows.length → j < m.cols.length →
      md.cols.getD j "" ∉ expectedCols → cell m i j ≠ .na := by
    intro i j hi hj hnd
    have hi' : i < md.rows.length := by rw [← hlen]; exact hi
    have hj' : j < md.cols.length := by
      rw [← congrArg List.length hcols]
      exact hj
    have hc := cell_normalize hwmd hn i j hi' hj'
    rw [applyCoerce_not_designated hnd] at hc
    have hdt : dtypeOf (colCells md j) ≠ .datetime :=
      dtypeOf_raw_ne_datetime (colCells_raw hrmd j)
    rw [hc]
    exact fillValue_ne_na hdt
  refine ⟨normalize_ok_width hwmd hn, ?_, hgenna, ?_⟩
  · intro i hi
    have hjlt : f.cols.indexOf keyCol < m.cols.length := by
      rw [congrArg List.length hcols, hmEq]
      show _ < (mergedCols f g).length
      rw [length_mergedCols hgn hkg]
      omega
    apply hgenna i _ hi hjlt
    have hname : md.cols.getD (f.cols.indexOf keyCol) "" = keyCol := by
      rw [hmEq]
      exact mergedCols_key_at_indexOf hkf
    rw [hname]
    decide
  · intro c hc
    rw [hcols, hmEq] at hc
    exact mem_mergedCols_inv hc

/-- Witness: `C9_key_invariant` on the example tables — the grassland
row's key cell is present. -/
theorem C9_key_invariant_witness :
    mergeDF exF exG = .ok exMD ∧ normalize exMD = .ok exM ∧
      cell exM 1 (exF.cols.indexOf keyCol) ≠ .na := by
  have h := C9_key_invariant exF exG exMD exM (by decide) (by decide)
    (by decide) (by decide) (by decide) rfl rfl
  exact ⟨rfl, rfl, h.2.1 1 (by decide)⟩

/-- Counterexample to C9 as stated: in the normalized merged example
table, the forest-origin row's non-key `Date_grassland` cell holds the
missing marker — an explicitly absent value, neither a habitat-recorded
value nor a sentinel — so not every non-key cell is present. -/
theorem C9_presence_counterexample :
    mergeDF exF exG = .ok exMD ∧ normalize exMD = .ok exM ∧
    exMD.cols.getD 5 "" = "Date_grassland" ∧ "Date_grassland" ≠ keyCol ∧
    cell exM 0 5 = .na ∧ cell exM 0 5 ≠ .num 0 ∧
    cell exM 0 5 ≠ .str "Unknown" :=
  ⟨rfl, rfl, by decide, by decide, by decide, by decide, by decide⟩

lemma coerceDate_str_none {s : String} (hp : parseDateStr s = none) :
    coerceDate (.str s) = .na := by
  simp [coerceDate, hp]

lemma coerceTime_str_none {s : String} (hp : parseTimeStr s = none) :
    coerceTime (.str s) = .na := by
  simp [coerceTime, hp]

/-- C3 (date/time independence from generic fill): a string cell of a
designated date or time column that fails to parse under the fixed
format ends as the missing marker after normalization — never `0` or
`"Unknown"`, and the generic imputation (which runs first) does not
touch it. -/
theorem C3_unparseable_datetime_is_missing (md m : DF)
    (hw : widthOK md = true) (hn : normalize md = .ok m) :
    ∀ i j, i < md.rows.length → j < md.cols.length → ∀ s : String,
      cell md i j = .str s →
      (md.cols.getD j "" ∈ dateColNames → parseDateStr s = none →
        cell m i j = .na) ∧
      (md.cols.getD j "" ∈ timeColNames → parseTimeStr s = none →
        cell m i j = .na) := by
  intro i j hi hj s hcell
  have hc := cell_normalize hw hn i j hi hj
  rw [hcell, fillValue_of_ne_na (by simp)] at hc
  constructor
  · intro hd hp
    rw [hc, applyCoerce_date hd, coerceDate_str_none hp]
  · intro ht hp
    rw [hc, applyCoerce_time ht, coerceTime_str_none hp]

/-- Witness: `C3_unparseable_datetime_is_missing` on the merged example
with the literal `"not-a-date"` in `Date_grassland`. -/
theorem C3_unparseable_datetime_is_missing_witness :
    mergeDF exF exGbad = .ok exMDbad ∧ normalize exMDbad = .ok exMbad ∧
      exMDbad.cols.getD 5 "" ∈ dateColNames ∧
      cell exMDbad 1 5 = .str "not-a-date" ∧
      parseDateStr "not-a-date" = none ∧ cell exMbad 1 5 = .na := by
  have h := C3_unparseable_datetime_is_missing exMDbad exMbad (by decide) rfl
  exact ⟨rfl, rfl, by decide, by decide, by decide,
    (h 1 5 (by decide) (by decide) "not-a-date" (by decide)).1 (by decide)
      (by decide)⟩

/-- C8 (normalizer failure semantics): normalization succeeds whenever
all six expected date/time columns are present — whatever the cell
values, so malformed values never make it fail — and fails precisely by
reporting a missing expected column otherwise. -/
theorem C8_normalizer_failure_semantics (df : DF) :
    ((∀ c ∈ expectedCols, c ∈ df.cols) → ∃ m, normalize df = .ok m) ∧
    (∀ c, normalize df = .error c → c ∈ expectedCols ∧ c ∉ df.cols) ∧
    ((∃ c ∈ expectedCols, c ∉ df.cols) → ∃ c, normalize df = .error c) := by
  refine ⟨?_, ?_, ?_⟩
  · intro hall
    exact normalize_eq_ok (fun c hc => by simpa using hall c hc)
  · intro c herr
    have h := normalize_err_inv herr
    exact ⟨h.1, by simpa using h.2⟩
  · rintro ⟨c, hc, hnc⟩
    cases herr : normalize df with
    | error c0 => exact ⟨c0, rfl⟩
    | ok m =>
      obtain ⟨-, -, hall⟩ := normalize_ok_inv herr
      exact absurd (by simpa using hall c hc) hnc

/-- Witness: `C8_normalizer_failure_semantics` — the complete example
table normalizes, the table lacking `Start_Time_grassland` errors. -/
theorem C8_normalizer_failure_semantics_witness :
    ((∀ c ∈ expectedCols, c ∈ exN.cols) ∧ ∃ m, normalize exN = .ok m) ∧
    ((∃ c ∈ expectedCols, c ∉ exNoCol.cols) ∧
      ∃ c, normalize exNoCol = .error c) :=
  ⟨⟨by decide, (C8_normalizer_failure_semantics exN).1 (by decide)⟩,
   ⟨⟨"Start_Time_grassland", by decide, by decide⟩,
    (C8_normalizer_failure_semantics exNoCol).2.2
      ⟨"Start_Time_grassland", by decide, by decide⟩⟩⟩

/-- Counterexample to C4 as stated: when only the second source is
missing, `load_data` still hands the loaded first table back to the
caller — the two results are not both "no data available". -/
theorem C4_loader_counterexample :
    exFS "forest.xlsx" = some exF ∧ exFS "grassland.xlsx" = none ∧
    (load_data exFS "forest.xlsx" "grassland.xlsx").1 = some exF ∧
    (load_data exFS "forest.xlsx" "grassland.xlsx").2 = none :=
  ⟨rfl, rfl, rfl, rfl⟩

/-- C4 (amended): if either source cannot be located, at least one of
`load_data`'s results is `None` and `preprocess_data` on them returns
`None`, so no downstream stage runs; a missing first source yields no
table at all — but a missing second source still returns the loaded
first table. -/
theorem C4_loader_failure_semantics (fs : String → Option DF)
    (p1 p2 : String) (h : fs p1 = none ∨ fs p2 = none) :
    ((load_data fs p1 p2).1 = none ∨ (load_data fs p1 p2).2 = none) ∧
    preprocess_data (load_data fs p1 p2).1 (load_data fs p1 p2).2 = none ∧
    (fs p1 = none → load_data fs p1 p2 = (none, none)) := by
  cases h1 : fs p1 with
  | none =>
    refine ⟨?_, ?_, ?_⟩
    · left
      simp [load_data, h1]
    · simp [load_data, h1, preprocess_data]
    · intro _
      simp [load_data, h1]
  | some d1 =>
    have h2 : fs p2 = none := by
      rcases h with h | h
      · rw [h1] at h
        exact absurd h (by simp)
      · exact h
    refine ⟨?_, ?_, ?_⟩
    · right
      simp [load_data, h1, h2]
    · simp [load_data, h1, h2, preprocess_data]
    · intro h0
      exact Option.noConfusion h0

/-- Witness: `C4_loader_failure_semantics` on the example filesystem
with only the forest source present. -/
theorem C4_loader_failure_semantics_witness :
    (exFS "forest.xlsx" = none ∨ exFS "grassland.xlsx" = none) ∧
    ((load_data exFS "forest.xlsx" "grassland.xlsx").1 = none ∨
      (load_data exFS "forest.xlsx" "grassland.xlsx").2 = none) ∧
    preprocess_data (load_data exFS "forest.xlsx" "grassland.xlsx").1
      (load_data exFS "forest.xlsx" "grassland.xlsx").2 = none :=
  ⟨Or.inr rfl,
   (C4_loader_failure_semantics exFS "forest.xlsx" "grassland.xlsx"
      (Or.inr rfl)).1,
   (C4_loader_failure_semantics exFS "forest.xlsx" "grassland.xlsx"
      (Or.inr rfl)).2.1⟩

end BirdsPipeline

namespace BirdsAlt

open BirdsPipeline

/-- C10: `birds.py`'s `load_and_preprocess_data` performs no key join:
it truncates both renamed-and-parsed tables to the shorter row count and
concatenates them side by side, so the merged table has exactly
`min len(forest) len(grassland)` rows — every longer-table row beyond
that is dropped — and row `i` is the positional pairing of the two
`i`-th rows. -/
theorem C10_truncating_positional_concat (dateParse : Value → Value)
    (f g : DF) :
    (load_and_preprocess_data dateParse f g).rows.length
        = min f.rows.length g.rows.length ∧
    ∀ i, i < min f.rows.length g.rows.length →
      (load_and_preprocess_data dateParse f g).rows.getD i [] =
        ((parseDateCols dateParse (renameAll "_forest" f)).rows.getD i []) ++
        ((parseDateCols dateParse (renameAll "_grassland" g)).rows.getD i []) := by
  have hfr : (parseDateCols dateParse (renameAll "_forest" f)).rows.length
      = f.rows.length := by
    simp [parseDateCols, renameAll]
  have hgr : (parseDateCols dateParse (renameAll "_grassland" g)).rows.length
      = g.rows.length := by
    simp [parseDateCols, renameAll]
  constructor
  · show (List.zipWith _ (List.take _ _) (List.take _ _)).length = _
    rw [List.length_zipWith, List.length_take, List.length_take, hfr, hgr]
    omega
  · intro i hi
    have hilt : i < (List.zipWith (fun a b => a ++ b)
        ((parseDateCols dateParse (renameAll "_forest" f)).rows.take
          (min (parseDateCols dateParse (renameAll "_forest" f)).rows.length
            (parseDateCols dateParse (renameAll "_grassland" g)).rows.length))
        ((parseDateCols dateParse (renameAll "_grassland" g)).rows.take
          (min (parseDateCols dateParse (renameAll "_forest" f)).rows.length
            (parseDateCols dateParse (renameAll "_grassland" g)).rows.length))).length := by
      rw [List.length_zipWith, List.length_take, List.length_take, hfr, hgr]
      omega
    show (List.zipWith _ _ _).getD i [] = _
    rw [List.getD_eq_getElem _ _ hilt, List.getElem_zipWith]
    have hif : i < f.rows.length := Nat.lt_of_lt_of_le hi (Nat.min_le_left _ _)
    have hig : i < g.rows.length := Nat.lt_of_lt_of_le hi (Nat.min_le_right _ _)
    rw [List.getElem_take, List.getElem_take]
    rw [List.getD_eq_getElem _ _ (by rw [hfr]; exact hif),
      List.getD_eq_getElem _ _ (by rw [hgr]; exact hig)]

/-- Witness: `C10_truncating_positional_concat` on the one-row example
tables. -/
theorem C10_truncating_positional_concat_witness :
    (load_and_preprocess_data coerceDate exF exG).rows.length
        = min exF.rows.length exG.rows.length ∧
    (load_and_preprocess_data coerceDate exF exG).rows.getD 0 [] =
      ((parseDateCols coerceDate (renameAll "_forest" exF)).rows.getD 0 []) ++
      ((parseDateCols coerceDate (renameAll "_grassland" exG)).rows.getD 0 []) :=
  ⟨(C10_truncating_positional_concat coerceDate exF exG).1,
   (C10_truncating_positional_concat coerceDate exF exG).2 0 (by decide)⟩

end BirdsAlt
